import Mathlib

/-!
Verification development for the ForwardRenderModule of
`src/framework/rendermodules/forward/forwardrendermodule.cpp` and its header
(`src/unnamed/part_000`).  The data model and operations below are a shallow
embedding of that source: machine integers become `Nat`/`Int` with explicit
`% 2^32` where overflow matters, pointers become small-integer identities or
`Option` values, and the GPU backend objects (pipelines, samplers, command
lists) are reduced to the identities the bookkeeping logic actually inspects.
-/

/-- 2^32, the modulus of the `uint32_t` reference counts. -/
def U32MOD : Nat := 4294967296

/-- A texture object identity (stands for `const cauldron::Texture*`;
`none` models `nullptr`). -/
abbrev TexId := Nat

/-- `BoundTexture` from the module header: a texture handle plus a `uint32_t`
reference count.  `pTexture = none` models the cleared (`nullptr`) handle. -/
structure BoundTexture where
  pTexture : Option TexId
  count : Nat
deriving DecidableEq

/-- `TextureInfo` as consumed by `AddTexture`: the texture object identity,
its desired sampler descriptor (by identity, standing for `SamplerDesc`
equality), and the UV set the texture reads (`UVSet`). -/
structure TexInfo where
  texId : TexId
  samplerDesc : Nat
  uvSet : Nat
deriving DecidableEq

/-- The texture classes of `cauldron::TextureClass` used by this module. -/
inductive TextureClass where
  | Albedo
  | MetalRough
  | SpecGloss
  | Normal
  | Emissive
  | Occlusion
deriving DecidableEq

/-- The material fields `ForwardRenderModule` reads: workflow predicates,
double-sided and blend-mode flags, and `GetTextureInfo` for each texture
class (one `Option TexInfo` field per class). -/
structure Material where
  hasPBRInfo : Bool
  hasPBRMetalRough : Bool
  hasPBRSpecGloss : Bool
  hasDoubleSided : Bool
  blendModeMask : Bool
  albedo : Option TexInfo
  metalRough : Option TexInfo
  specGloss : Option TexInfo
  normal : Option TexInfo
  emissive : Option TexInfo
  occlusion : Option TexInfo
deriving DecidableEq

/-- `Material::GetTextureInfo(textureClass)`. -/
def getTextureInfo (m : Material) : TextureClass → Option TexInfo
  | TextureClass.Albedo => m.albedo
  | TextureClass.MetalRough => m.metalRough
  | TextureClass.SpecGloss => m.specGloss
  | TextureClass.Normal => m.normal
  | TextureClass.Emissive => m.emissive
  | TextureClass.Occlusion => m.occlusion

/-- The surface fields the module reads: its vertex-attribute bitmask, its
translucency flag and its material.  The structure value itself plays the
role of the `const Surface*` identity. -/
structure Surface where
  vertexAttributes : Nat
  hasTranslucency : Bool
  material : Material
deriving DecidableEq

/-- First-match scan of a list, returning the index and the element found.
This is the shallow embedding of the C++ `for`-loops that linear-scan a
`std::vector` and `break` on the first element satisfying a predicate. -/
def scanEntry (p : α → Bool) : List α → Option (Nat × α)
  | [] => none
  | a :: l => if p a then some (0, a) else (scanEntry p l).map (fun r => (r.1 + 1, r.2))

/-- Point update of a list: the embedding of `vec[i] = ...` / `vec[i].f = ...`.
Out-of-range indices leave the list unchanged (the C++ never goes out of
range on the paths modelled here). -/
def updateAt (f : α → α) : List α → Nat → List α
  | [], _ => []
  | a :: l, 0 => f a :: l
  | a :: l, n + 1 => a :: updateAt f l n

/-- Removal of the element at an index: the embedding of
`vector::erase(iterator)`. -/
def eraseAt : List α → Nat → List α
  | [], _ => []
  | _ :: l, 0 => l
  | a :: l, n + 1 => a :: eraseAt l n

/-- The comparison `pTextureInfo->pTexture == boundTexture.pTexture` of the
texture-slot scan in `AddTexture`. -/
def texMatch (texId : TexId) (b : BoundTexture) : Bool :=
  decide (b.pTexture = some texId)

/-- The comparison `boundTexture.count == 0` of the free-slot scan in
`AddTexture`. -/
def slotFree (b : BoundTexture) : Bool :=
  decide (b.count = 0)

/-- The `count += 1` bump (in `uint32_t` arithmetic) of an already-mapped
texture entry. -/
def bumpTexRef (b : BoundTexture) : BoundTexture :=
  ⟨b.pTexture, (b.count + 1) % U32MOD⟩

/-- The texture-slot half of `ForwardRenderModule::AddTexture`
(forwardrendermodule.cpp lines 680-711).  The single C++ loop both looks for
an entry already referencing the texture (returning its index after bumping
the count) and records the first zero-count entry; when no entry matches,
the first zero-count slot is overwritten, else a new entry is appended.
Because `firstFreeIndex` is only consulted when no entry matched, the loop
splits into the two scans below. -/
def AddTextureSlot (texId : TexId) (textures : List BoundTexture) :
    List BoundTexture × Nat :=
  match scanEntry (texMatch texId) textures with
  | some (i, _) => (updateAt bumpTexRef textures i, i)
  | none =>
    match scanEntry slotFree textures with
    | some (j, _) => (updateAt (fun _ => ⟨some texId, 1⟩) textures j, j)
    | none => (textures ++ [⟨some texId, 1⟩], textures.length)

/-- Result of `ForwardRenderModule::AddTexture`: the updated texture table
and sampler list, the returned texture index and the `textureSamplerIndex`
out-parameter. -/
structure AddTextureResult where
  textures : List BoundTexture
  samplers : List Nat
  textureIndex : Int
  samplerIndex : Int
deriving DecidableEq

/-- `ForwardRenderModule::AddTexture` (forwardrendermodule.cpp lines
660-714).  Samplers are identified by their descriptor (`GetDesc()`
equality); when no sampler matches, the scan leaves `textureSamplerIndex`
at `m_Samplers.size()` and a new sampler is appended there.  When the
material has no texture of the class (`GetTextureInfo` returned `nullptr`,
here `none`) the table, the sampler list and the out-parameter are left
untouched and `-1` is returned. -/
def AddTexture (ti : Option TexInfo) (textures : List BoundTexture)
    (samplers : List Nat) (samplerIndexIn : Int) : AddTextureResult :=
  match ti with
  | none => ⟨textures, samplers, -1, samplerIndexIn⟩
  | some t =>
    let sp : List Nat × Int :=
      match scanEntry (fun d => decide (d = t.samplerDesc)) samplers with
      | some (k, _) => (samplers, Int.ofNat k)
      | none => (samplers ++ [t.samplerDesc], Int.ofNat samplers.length)
    let tp := AddTextureSlot t.texId textures
    ⟨tp.1, sp.1, Int.ofNat tp.2, sp.2⟩

/-- Unfolding equation for `AddTextureSlot` when an entry already references
the texture. -/
theorem AddTextureSlot_eq_found {texId : TexId} {ts : List BoundTexture}
    {i : Nat} {a : BoundTexture} (h : scanEntry (texMatch texId) ts = some (i, a)) :
    AddTextureSlot texId ts = (updateAt bumpTexRef ts i, i) := by
  unfold AddTextureSlot
  rw [h]

/-- Unfolding equation for `AddTextureSlot` when the texture is absent and a
zero-count slot exists. -/
theorem AddTextureSlot_eq_reuse {texId : TexId} {ts : List BoundTexture}
    {j : Nat} {b : BoundTexture} (h1 : scanEntry (texMatch texId) ts = none)
    (h2 : scanEntry slotFree ts = some (j, b)) :
    AddTextureSlot texId ts = (updateAt (fun _ => ⟨some texId, 1⟩) ts j, j) := by
  unfold AddTextureSlot
  rw [h1, h2]

/-- Unfolding equation for `AddTextureSlot` when the texture is absent and no
zero-count slot exists. -/
theorem AddTextureSlot_eq_append {texId : TexId} {ts : List BoundTexture}
    (h1 : scanEntry (texMatch texId) ts = none)
    (h2 : scanEntry slotFree ts = none) :
    AddTextureSlot texId ts = (ts ++ [⟨some texId, 1⟩], ts.length) := by
  unfold AddTextureSlot
  rw [h1, h2]

/-- The per-entry effect of `ForwardRenderModule::RemoveTexture`:
`count -= 1` in `uint32_t` arithmetic, and the handle is cleared exactly
when the count reaches zero. -/
def decTexRef (b : BoundTexture) : BoundTexture :=
  ⟨if (b.count + (U32MOD - 1)) % U32MOD = 0 then none else b.pTexture,
   (b.count + (U32MOD - 1)) % U32MOD⟩

/-- `ForwardRenderModule::RemoveTexture` (forwardrendermodule.cpp lines
716-726): a no-op for any negative index, otherwise an unconditional
`uint32_t` decrement of the slot's reference count, clearing the handle on
reaching zero. -/
def RemoveTexture (index : Int) (textures : List BoundTexture) :
    List BoundTexture :=
  if 0 ≤ index then updateAt decTexRef textures index.toNat else textures

section ScanLemmas

variable {p : α → Bool}

theorem scanEntry_eq_none : scanEntry p l = none ↔ ∀ a ∈ l, p a = false := by
  induction l with
  | nil => simp [scanEntry]
  | cons a l ih =>
    by_cases h : p a
    · simp [scanEntry, h]
    · simp only [scanEntry, if_neg h, List.mem_cons]
      constructor
      · intro hm
        have : scanEntry p l = none := by
          cases hsc : scanEntry p l with
          | none => rfl
          | some r => rw [hsc] at hm; simp [Option.map] at hm
        intro b hb
        rcases hb with rfl | hb
        · exact Bool.eq_false_iff.mpr h
        · exact (ih.mp this) b hb
      · intro hall
        have : scanEntry p l = none := ih.mpr (fun b hb => hall b (Or.inr hb))
        simp [this]

theorem scanEntry_eq_some :
    ∀ {l : List α} {i : Nat} {a : α}, scanEntry p l = some (i, a) →
      l[i]? = some a ∧ p a = true ∧
        ∀ j b, j < i → l[j]? = some b → p b = false
  | [], i, a, h => by simp [scanEntry] at h
  | c :: l, i, a, h => by
    by_cases hc : p c
    · simp only [scanEntry, if_pos hc, Option.some.injEq, Prod.mk.injEq] at h
      obtain ⟨hi, ha⟩ := h
      subst hi; subst ha
      refine ⟨by simp, hc, ?_⟩
      intro j b hj hb
      exact absurd hj (Nat.not_lt_zero j)
    · simp only [scanEntry, if_neg hc] at h
      cases hsc : scanEntry p l with
      | none => rw [hsc] at h; simp at h
      | some r =>
        rw [hsc] at h
        obtain ⟨ri, ra⟩ := r
        simp only [Option.map_some', Option.some.injEq, Prod.mk.injEq] at h
        obtain ⟨hi, ha⟩ := h
        subst ha
        obtain ⟨h1, h2, h3⟩ := scanEntry_eq_some hsc
        subst hi
        refine ⟨by simpa using h1, h2, ?_⟩
        intro j b hj hjb
        cases j with
        | zero =>
          simp only [List.getElem?_cons_zero, Option.some.injEq] at hjb
          subst hjb
          simpa using hc
        | succ j' =>
          exact h3 j' b (by omega) (by simpa using hjb)

theorem scanEntry_isSome_of_mem (ha : a ∈ l) (hp : p a = true) :
    (scanEntry p l).isSome := by
  induction l with
  | nil => simp at ha
  | cons c l ih =>
    by_cases hc : p c
    · simp [scanEntry, hc]
    · rcases List.mem_cons.mp ha with rfl | ha'
      · exact absurd hp (by simp [hc])
      · have := ih ha'
        cases hsc : scanEntry p l with
        | none => rw [hsc] at this; simp at this
        | some r => simp [scanEntry, hc, hsc]

theorem scanEntry_append_of_none :
    ∀ {l₁ : List α}, scanEntry p l₁ = none → ∀ l₂ : List α,
      scanEntry p (l₁ ++ l₂) =
        (scanEntry p l₂).map (fun r => (r.1 + l₁.length, r.2))
  | [], _, l₂ => by
    simp only [List.nil_append, List.length_nil]
    cases scanEntry p l₂ with
    | none => simp
    | some r => simp
  | c :: l, h, l₂ => by
    by_cases hc : p c
    · simp [scanEntry, hc] at h
    · simp only [scanEntry, if_neg hc] at h
      have hl : scanEntry p l = none := by
        cases hsc : scanEntry p l with
        | none => rfl
        | some r => rw [hsc] at h; simp at h
      simp only [List.cons_append, scanEntry, if_neg hc, List.append_eq]
      rw [scanEntry_append_of_none hl l₂]
      cases scanEntry p l₂ with
      | none => simp
      | some r => simp [List.length_cons, Nat.add_assoc]

end ScanLemmas

section UpdateLemmas

variable {f : α → α}

theorem length_updateAt (l : List α) (i : Nat) :
    (updateAt f l i).length = l.length := by
  induction l generalizing i with
  | nil => rfl
  | cons a l ih => cases i <;> simp [updateAt, ih]

theorem getElem?_updateAt_self (l : List α) (i : Nat) (a : α)
    (h : l[i]? = some a) : (updateAt f l i)[i]? = some (f a) := by
  induction l generalizing i with
  | nil => simp at h
  | cons c l ih =>
    cases i with
    | zero => simp_all [updateAt]
    | succ n => simpa [updateAt] using ih _ (by simpa using h)

theorem getElem?_updateAt_ne (l : List α) (i j : Nat) (hne : j ≠ i) :
    (updateAt f l i)[j]? = l[j]? := by
  induction l generalizing i j with
  | nil => simp [updateAt]
  | cons c l ih =>
    cases i with
    | zero =>
      cases j with
      | zero => exact absurd rfl hne
      | succ m => simp [updateAt]
    | succ n =>
      cases j with
      | zero => simp [updateAt]
      | succ m => simpa [updateAt] using ih n m (by omega)

theorem mem_updateAt (h : b ∈ updateAt f l i) :
    b ∈ l ∨ ∃ a, l[i]? = some a ∧ b = f a := by
  induction l generalizing i with
  | nil => simp [updateAt] at h
  | cons c l ih =>
    cases i with
    | zero =>
      rcases List.mem_cons.mp h with rfl | hb
      · exact Or.inr ⟨c, by simp⟩
      · exact Or.inl (List.mem_cons_of_mem _ hb)
    | succ n =>
      rcases List.mem_cons.mp h with rfl | hb
      · exact Or.inl (List.mem_cons_self _ _)
      · rcases ih hb with h' | ⟨a, ha, hba⟩
        · exact Or.inl (List.mem_cons_of_mem _ h')
        · exact Or.inr ⟨a, by simpa using ha, hba⟩

theorem mem_eraseAt (h : b ∈ eraseAt l i) : b ∈ l := by
  induction l generalizing i with
  | nil => simp [eraseAt] at h
  | cons c l ih =>
    cases i with
    | zero => exact List.mem_cons_of_mem _ h
    | succ n =>
      rcases List.mem_cons.mp h with rfl | hb
      · exact List.mem_cons_self _ _
      · exact List.mem_cons_of_mem _ (ih hb)

theorem updateAt_out_of_range (l : List α) (i : Nat) (h : l.length ≤ i) :
    updateAt f l i = l := by
  induction l generalizing i with
  | nil => rfl
  | cons c l ih =>
    cases i with
    | zero => simp at h
    | succ n =>
      show c :: updateAt f l n = c :: l
      rw [ih n (by simpa using h)]

theorem countP_updateAt (p : α → Bool) (f : α → α) :
    ∀ (l : List α) (i : Nat) (a : α), l[i]? = some a →
      (updateAt f l i).countP p + (if p a then 1 else 0) =
        l.countP p + (if p (f a) then 1 else 0)
  | [], i, a, h => by simp at h
  | c :: l, 0, a, h => by
    simp only [List.getElem?_cons_zero, Option.some.injEq] at h
    subst h
    simp only [updateAt, List.countP_cons]
    by_cases h1 : p c <;> by_cases h2 : p (f c) <;> simp [h1, h2]
  | c :: l, i + 1, a, h => by
    simp only [List.getElem?_cons_succ] at h
    simp only [updateAt, List.countP_cons]
    have := countP_updateAt p f l i a h
    omega

theorem two_le_countP (p : α → Bool) :
    ∀ {l : List α} {i j : Nat} {a b : α}, i < j →
      l[i]? = some a → l[j]? = some b → p a = true → p b = true →
        2 ≤ l.countP p
  | [], i, j, a, b, _, ha, _, _, _ => by simp at ha
  | c :: l, 0, j, a, b, hij, ha, hb, hpa, hpb => by
    simp only [List.getElem?_cons_zero, Option.some.injEq] at ha
    subst ha
    cases j with
    | zero => omega
    | succ j' =>
      simp only [List.getElem?_cons_succ] at hb
      have hmem : b ∈ l := List.getElem?_mem hb
      have h1 : 0 < l.countP p := List.countP_pos_iff.mpr ⟨b, hmem, hpb⟩
      simp only [List.countP_cons, hpa, if_pos]
      omega
  | c :: l, i + 1, j, a, b, hij, ha, hb, hpa, hpb => by
    cases j with
    | zero => omega
    | succ j' =>
      simp only [List.getElem?_cons_succ] at ha hb
      have := two_le_countP p (by omega : i < j') ha hb hpa hpb
      simp only [List.countP_cons]
      omega

end UpdateLemmas

/-- Well-formedness of the texture table maintained by add/remove: every
`uint32_t` count is in range and each texture object is referenced by at
most one slot. -/
def TexWF (ts : List BoundTexture) : Prop :=
  (∀ b ∈ ts, b.count < U32MOD) ∧
    ∀ texId : TexId, ts.countP (texMatch texId) ≤ 1

/-- States of the texture table reachable from the empty table by any
sequence of `AddTexture` slot operations and `RemoveTexture` calls
(claim C1's "every sequence of AddTexture/RemoveTexture calls starting
from an empty table"). -/
inductive TexReachable : List BoundTexture → Prop
  | empty : TexReachable []
  | add (texId : TexId) {ts : List BoundTexture} :
      TexReachable ts → TexReachable (AddTextureSlot texId ts).1
  | remove (index : Int) {ts : List BoundTexture} :
      TexReachable ts → TexReachable (RemoveTexture index ts)

theorem texWF_addSlot (texId : TexId) (ts : List BoundTexture)
    (h : TexWF ts) : TexWF (AddTextureSlot texId ts).1 := by
  obtain ⟨hcnt, huniq⟩ := h
  cases hfind : scanEntry (texMatch texId) ts with
  | some r =>
    obtain ⟨i, a⟩ := r
    rw [AddTextureSlot_eq_found hfind]
    show TexWF (updateAt bumpTexRef ts i)
    obtain ⟨hia, _, _⟩ := scanEntry_eq_some hfind
    constructor
    · intro b hb
      rcases mem_updateAt hb with hb' | ⟨a', _, rfl⟩
      · exact hcnt b hb'
      · exact Nat.mod_lt _ (by norm_num [U32MOD])
    · intro t
      have heq := countP_updateAt (texMatch t) bumpTexRef ts i a hia
      have hp : texMatch t (bumpTexRef a) = texMatch t a := rfl
      rw [hp] at heq
      have := Nat.add_right_cancel heq
      rw [this]
      exact huniq t
  | none =>
    cases hfree : scanEntry slotFree ts with
    | some r =>
      obtain ⟨j, bj⟩ := r
      rw [AddTextureSlot_eq_reuse hfind hfree]
      show TexWF (updateAt (fun _ => ⟨some texId, 1⟩) ts j)
      obtain ⟨hja, _, _⟩ := scanEntry_eq_some hfree
      constructor
      · intro b hb
        rcases mem_updateAt hb with hb' | ⟨a', _, rfl⟩
        · exact hcnt b hb'
        · norm_num [U32MOD]
      · intro t
        have heq := countP_updateAt (texMatch t) (fun _ => ⟨some texId, 1⟩) ts j bj hja
        have hnone := scanEntry_eq_none.mp hfind
        by_cases ht : t = texId
        · subst ht
          have hzero : ts.countP (texMatch t) = 0 :=
            List.countP_eq_zero.mpr (fun b hb => by simp [hnone b hb])
          have hbj : texMatch t bj = false := hnone bj (List.getElem?_mem hja)
          have hnew : texMatch t (⟨some t, 1⟩ : BoundTexture) = true := by
            simp [texMatch]
          rw [hzero, hbj, hnew] at heq
          simp at heq
          omega
        · have hnew : texMatch t (⟨some texId, 1⟩ : BoundTexture) = false := by
            simp [texMatch]
            exact fun hx => absurd hx.symm ht
          rw [hnew] at heq
          have h1 := huniq t
          by_cases hb : texMatch t bj = true <;> simp [hb] at heq <;> omega
    | none =>
      rw [AddTextureSlot_eq_append hfind hfree]
      show TexWF (ts ++ [⟨some texId, 1⟩])
      have hnone := scanEntry_eq_none.mp hfind
      constructor
      · intro b hb
        rcases List.mem_append.mp hb with h' | h'
        · exact hcnt b h'
        · simp at h'
          subst h'
          norm_num [U32MOD]
      · intro t
        rw [List.countP_append]
        by_cases ht : t = texId
        · subst ht
          have hzero : ts.countP (texMatch t) = 0 :=
            List.countP_eq_zero.mpr (fun b hb => by simp [hnone b hb])
          have : List.countP (texMatch t) [(⟨some t, 1⟩ : BoundTexture)] = 1 := by
            simp [texMatch]
          omega
        · have : List.countP (texMatch t) [(⟨some texId, 1⟩ : BoundTexture)] = 0 := by
            simp [texMatch]
            exact fun hx => absurd hx.symm ht
          have h1 := huniq t
          omega

theorem texMatch_decTexRef (t : TexId) (b : BoundTexture)
    (h : texMatch t (decTexRef b) = true) : texMatch t b = true := by
  unfold texMatch at h ⊢
  unfold decTexRef at h
  rw [decide_eq_true_eq] at h ⊢
  by_cases hc : (b.count + (U32MOD - 1)) % U32MOD = 0
  · rw [if_pos hc] at h
    exact absurd h (by simp)
  · rw [if_neg hc] at h
    exact h

theorem texWF_remove (index : Int) (ts : List BoundTexture)
    (h : TexWF ts) : TexWF (RemoveTexture index ts) := by
  obtain ⟨hcnt, huniq⟩ := h
  unfold RemoveTexture
  by_cases hpos : 0 ≤ index
  · rw [if_pos hpos]
    by_cases hin : index.toNat < ts.length
    · obtain ⟨a, ha⟩ : ∃ a, ts[index.toNat]? = some a := by
        exact ⟨ts[index.toNat], List.getElem?_eq_getElem hin⟩
      constructor
      · intro b hb
        rcases mem_updateAt hb with hb' | ⟨a', _, rfl⟩
        · exact hcnt b hb'
        · exact Nat.mod_lt _ (by norm_num [U32MOD])
      · intro t
        have heq := countP_updateAt (texMatch t) decTexRef ts index.toNat a ha
        have h1 := huniq t
        by_cases hd : texMatch t (decTexRef a) = true
        · have := texMatch_decTexRef t a hd
          rw [hd, this] at heq
          omega
        · rw [Bool.eq_false_iff.mpr hd] at heq
          by_cases hb : texMatch t a = true <;> simp [hb] at heq <;> omega
    · rw [updateAt_out_of_range ts index.toNat (by omega)]
      exact ⟨hcnt, huniq⟩
  · rw [if_neg hpos]
    exact ⟨hcnt, huniq⟩

/-- Every reachable texture table is well-formed. -/
theorem texReachable_wf {ts : List BoundTexture} (h : TexReachable ts) :
    TexWF ts := by
  induction h with
  | empty => exact ⟨by simp, by simp⟩
  | add texId _ ih => exact texWF_addSlot texId _ ih
  | remove index _ ih => exact texWF_remove index _ ih

/-- In a well-formed table, an entry referencing `texId` at index `i` is what
the `AddTexture` scan finds (it is the only such entry). -/
theorem scanEntry_texMatch_of_unique {ts : List BoundTexture} {i : Nat}
    {b : BoundTexture} {texId : TexId} (hwf : TexWF ts)
    (hib : ts[i]? = some b) (hmatch : b.pTexture = some texId) :
    scanEntry (texMatch texId) ts = some (i, b) := by
  have hmem : b ∈ ts := List.getElem?_mem hib
  have hpb : texMatch texId b = true := by simp [texMatch, hmatch]
  have hsome := scanEntry_isSome_of_mem hmem hpb
  cases hsc : scanEntry (texMatch texId) ts with
  | none => rw [hsc] at hsome; simp at hsome
  | some r =>
    obtain ⟨i0, a0⟩ := r
    obtain ⟨h1, h2, _⟩ := scanEntry_eq_some hsc
    rcases Nat.lt_trichotomy i0 i with hlt | heq | hgt
    · have h4 := two_le_countP (texMatch texId) hlt h1 hib h2 hpb
      have h5 := hwf.2 texId
      omega
    · subst heq
      rw [h1] at hib
      obtain rfl := Option.some.inj hib
      rfl
    · have h4 := two_le_countP (texMatch texId) hgt hib h1 hpb h2
      have h5 := hwf.2 texId
      omega

/-- Unfolding equation for `RemoveTexture` at a non-negative index. -/
theorem RemoveTexture_ofNat (i : Nat) (ts : List BoundTexture) :
    RemoveTexture (Int.ofNat i) ts = updateAt decTexRef ts i := by
  unfold RemoveTexture
  split
  · congr 1
  · next h => exact absurd (Int.natCast_nonneg i) h

/-- C1: over every sequence of `AddTexture`/`RemoveTexture` calls starting
from the empty table: `AddTexture` of a texture already bound in some slot
returns that slot's index, bumps its reference count by exactly one (in
`uint32_t` arithmetic) and adds no entry; `RemoveTexture` on a non-sentinel
slot decrements exactly that slot's count by one; and an `AddTexture` of an
unbound texture overwrites a slot iff its count is zero, choosing the first
zero-count slot in scan order, appending only when no count is zero. -/
theorem fwd_C1 :
    (∀ ts : List BoundTexture, TexReachable ts →
      ∀ (texId : TexId) (i : Nat) (b : BoundTexture), ts[i]? = some b →
        b.pTexture = some texId → ∀ (sd uv : Nat) (ss : List Nat) (sIn : Int),
          (AddTexture (some ⟨texId, sd, uv⟩) ts ss sIn).textureIndex = Int.ofNat i ∧
          (AddTexture (some ⟨texId, sd, uv⟩) ts ss sIn).textures.length = ts.length ∧
          (AddTexture (some ⟨texId, sd, uv⟩) ts ss sIn).textures[i]? =
            some ⟨b.pTexture, (b.count + 1) % U32MOD⟩ ∧
          ∀ j : Nat, j ≠ i →
            (AddTexture (some ⟨texId, sd, uv⟩) ts ss sIn).textures[j]? = ts[j]?) ∧
    (∀ (ts : List BoundTexture) (i : Nat) (b : BoundTexture), ts[i]? = some b →
      (RemoveTexture (Int.ofNat i) ts).length = ts.length ∧
      (RemoveTexture (Int.ofNat i) ts)[i]? = some (decTexRef b) ∧
      (decTexRef b).count = (b.count + (U32MOD - 1)) % U32MOD ∧
      (1 ≤ b.count → b.count < U32MOD → (decTexRef b).count = b.count - 1) ∧
      ∀ j : Nat, j ≠ i → (RemoveTexture (Int.ofNat i) ts)[j]? = ts[j]?) ∧
    (∀ (ts : List BoundTexture) (texId : TexId),
      scanEntry (texMatch texId) ts = none →
        (∀ (j : Nat) (b : BoundTexture), scanEntry slotFree ts = some (j, b) →
          AddTextureSlot texId ts = (updateAt (fun _ => ⟨some texId, 1⟩) ts j, j) ∧
          b.count = 0 ∧
          ∀ (k : Nat) (c : BoundTexture), k < j → ts[k]? = some c → c.count ≠ 0) ∧
        (scanEntry slotFree ts = none →
          AddTextureSlot texId ts = (ts ++ [⟨some texId, 1⟩], ts.length))) := by
  refine ⟨?_, ?_, ?_⟩
  · intro ts hreach texId i b hib hmatch sd uv ss sIn
    have hwf := texReachable_wf hreach
    have hscan := scanEntry_texMatch_of_unique hwf hib hmatch
    have heq := AddTextureSlot_eq_found hscan
    have ht : (AddTexture (some ⟨texId, sd, uv⟩) ts ss sIn).textures =
        updateAt bumpTexRef ts i := by
      show (AddTextureSlot texId ts).1 = updateAt bumpTexRef ts i
      rw [heq]
    have hti : (AddTexture (some ⟨texId, sd, uv⟩) ts ss sIn).textureIndex =
        Int.ofNat i := by
      show Int.ofNat (AddTextureSlot texId ts).2 = Int.ofNat i
      rw [heq]
    refine ⟨hti, ?_, ?_, ?_⟩
    · rw [ht]
      exact length_updateAt ts i
    · rw [ht]
      exact getElem?_updateAt_self ts i b hib
    · intro j hj
      rw [ht]
      exact getElem?_updateAt_ne ts i j hj
  · intro ts i b hib
    have hr := RemoveTexture_ofNat i ts
    refine ⟨?_, ?_, rfl, ?_, ?_⟩
    · rw [hr]
      exact length_updateAt ts i
    · rw [hr]
      exact getElem?_updateAt_self ts i b hib
    · intro h1 h2
      show (b.count + (4294967296 - 1)) % 4294967296 = b.count - 1
      have h2' : b.count < 4294967296 := h2
      omega
    · intro j hj
      rw [hr]
      exact getElem?_updateAt_ne ts i j hj
  · intro ts texId hnone
    constructor
    · intro j b hfree
      obtain ⟨hjb, hpb, hmin⟩ := scanEntry_eq_some hfree
      refine ⟨AddTextureSlot_eq_reuse hnone hfree, ?_, ?_⟩
      · exact of_decide_eq_true hpb
      · intro k c hk hkc
        have hf := hmin k c hk hkc
        simp only [slotFree, decide_eq_false_iff_not] at hf
        exact hf
    · intro hfree2
      exact AddTextureSlot_eq_append hnone hfree2

/-- Witness for C1 at a concrete reachable table: re-adding texture `5` to
the one-entry table produced by a first add returns slot 0 with count 2. -/
theorem fwd_C1_witness :
    (AddTexture (some ⟨5, 0, 0⟩) [⟨some 5, 1⟩] [] 0).textureIndex = Int.ofNat 0 ∧
    (AddTexture (some ⟨5, 0, 0⟩) [⟨some 5, 1⟩] [] 0).textures.length = 1 ∧
    (AddTexture (some ⟨5, 0, 0⟩) [⟨some 5, 1⟩] [] 0).textures[0]? =
      some ⟨some 5, (1 + 1) % U32MOD⟩ := by
  have hr : TexReachable [(⟨some 5, 1⟩ : BoundTexture)] :=
    TexReachable.add 5 TexReachable.empty
  have h := fwd_C1.1 [⟨some 5, 1⟩] hr 5 0 ⟨some 5, 1⟩ rfl rfl 0 0 [] 0
  exact ⟨h.1, h.2.1, h.2.2.1⟩

/-- C6: `AddTexture` for a material with no texture of the requested class
returns the sentinel `-1` and leaves the table, the sampler list and the
sampler-index out-parameter untouched; `RemoveTexture` of the sentinel `-1`
(or any negative index) changes nothing. -/
theorem fwd_C6 :
    (∀ (textures : List BoundTexture) (samplers : List Nat) (samplerIndexIn : Int),
      AddTexture none textures samplers samplerIndexIn =
        ⟨textures, samplers, -1, samplerIndexIn⟩) ∧
    (∀ (textures : List BoundTexture) (n : Nat),
      RemoveTexture (Int.negSucc n) textures = textures) ∧
    (∀ textures : List BoundTexture, RemoveTexture (-1) textures = textures) := by
  refine ⟨fun _ _ _ => rfl, ?_, ?_⟩
  · intro textures n
    unfold RemoveTexture
    rw [if_neg (Int.not_le.mpr (Int.negSucc_lt_zero n))]
  · intro textures
    unfold RemoveTexture
    rw [if_neg (by norm_num)]

/-- C10: `RemoveTexture` decrements unconditionally for every non-negative
in-range index; on a slot whose count is already `0` the `uint32_t` count
wraps to `4294967295` (and the handle is not cleared, since the new count is
non-zero), so zero-count-means-free survives only when every remove matches
a prior add on a slot with count at least 1. -/
theorem fwd_C10 :
    ∀ (ts : List BoundTexture) (i : Nat) (b : BoundTexture), ts[i]? = some b →
      (RemoveTexture (Int.ofNat i) ts)[i]? = some (decTexRef b) ∧
      (decTexRef b).count = (b.count + (U32MOD - 1)) % U32MOD ∧
      (b.count = 0 →
        (decTexRef b).count = 4294967295 ∧ (decTexRef b).pTexture = b.pTexture) := by
  intro ts i b hib
  refine ⟨?_, rfl, ?_⟩
  · rw [RemoveTexture_ofNat i ts]
    exact getElem?_updateAt_self ts i b hib
  · intro h0
    constructor
    · simp only [decTexRef]
      rw [h0]
      norm_num [U32MOD]
    · simp only [decTexRef]
      rw [h0]
      norm_num [U32MOD]

/-- Witness for C10: removing from a freed slot (count `0`) wraps its count
to `4294967295`. -/
theorem fwd_C10_witness :
    (RemoveTexture (Int.ofNat 0) [(⟨none, 0⟩ : BoundTexture)])[0]? =
      some (decTexRef ⟨none, 0⟩) ∧
    (decTexRef (⟨none, 0⟩ : BoundTexture)).count = 4294967295 := by
  have h := fwd_C10 [⟨none, 0⟩] 0 ⟨none, 0⟩ rfl
  exact ⟨h.1, (h.2.2 rfl).1⟩

/-! ## Pipeline permutation cache -/

/-- Bit flags of cauldron's `VertexAttributeType` (the enum lives in the
render backend, outside src/).  Modelled from the spec (§4.2) and the source
comments: Position, Normal, Tangent, Texcoord0, Texcoord1, Color0, Color1
occupy the low bits in this order, skinning weight/joint attributes follow,
and PreviousPosition is the highest attribute (Execute's skinned-buffer
override of `vertexBuffers.back()` relies on it sorting last). -/
def VertexAttributeFlag_Position : Nat := 1 <<< 0

def VertexAttributeFlag_Normal : Nat := 1 <<< 1

def VertexAttributeFlag_Tangent : Nat := 1 <<< 2

def VertexAttributeFlag_Texcoord0 : Nat := 1 <<< 3

def VertexAttributeFlag_Texcoord1 : Nat := 1 <<< 4

def VertexAttributeFlag_Color0 : Nat := 1 <<< 5

def VertexAttributeFlag_Color1 : Nat := 1 <<< 6

def VertexAttributeFlag_PreviousPosition : Nat := 1 <<< 11

/-- `VertexAttributeType::Count`. -/
def VertexAttributeTypeCount : Nat := 12

/-- Integer codes for the shader define names this module inserts
(`DefineList` keys); one code per distinct name. -/
def ID_HAS_MOTION_VECTORS : Nat := 1

def ID_HAS_MOTION_VECTORS_RT : Nat := 2

def ID_MATERIAL_METALLICROUGHNESS : Nat := 3

def ID_MATERIAL_SPECULARGLOSSINESS : Nat := 4

def ID_albedoTexture : Nat := 5

def ID_albedoTexCoord : Nat := 6

def ID_metallicRoughnessTexture : Nat := 7

def ID_metallicRoughnessTexCoord : Nat := 8

def ID_specularGlossinessTexture : Nat := 9

def ID_specularGlossinessTexCoord : Nat := 10

def ID_normalTexture : Nat := 11

def ID_normalTexCoord : Nat := 12

def ID_emissiveTexture : Nat := 13

def ID_emissiveTexCoord : Nat := 14

def ID_occlusionTexture : Nat := 15

def ID_occlusionTexCoord : Nat := 16

def ID_doublesided : Nat := 17

def ID_alphaMask : Nat := 18

/-- Base code for the per-attribute presence defines emitted by
`Surface::GetVertexAttributeDefines` (code = base + attribute index). -/
def ID_attributeDefineBase : Nat := 100

/-- A shader define list: `cauldron::DefineList` is a `std::map` keyed by
the define name.  Keys are the integer codes above, values integer-coded
define values; the list is kept sorted by key. -/
abbrev DefineMap := List (Nat × Nat)

/-- `std::map::insert`: keeps the map sorted by key and does not overwrite
an existing key. -/
def insertDefine (k v : Nat) : DefineMap → DefineMap
  | [] => [(k, v)]
  | (k0, v0) :: rest =>
    if k < k0 then (k, v) :: (k0, v0) :: rest
    else if k = k0 then (k0, v0) :: rest
    else (k0, v0) :: insertDefine k v rest

/-- Modelled from the spec: `AddTextureToDefineList`
(render/shaderbuilderhelper) is not under src/.  Per §4.2 step 2 it emits a
has-texture define and a texcoord-set-index define for a texture class, but
only when the texture exists and its required texcoord attribute
(`Texcoord0 + UVSet`, bit `3 + uvSet`) is present on the surface; a texture
whose UV input is missing from the surface is ignored.  Per §4.2 step 1 the
used-attribute mask is exactly the fixed candidate set intersected with the
surface's attributes, so this model leaves the mask unchanged. -/
def AddTextureToDefineList (defineList : DefineMap) (surfaceAttributes : Nat)
    (m : Material) (textureClass : TextureClass)
    (textureKey texCoordKey : Nat) : DefineMap :=
  match getTextureInfo m textureClass with
  | some ti =>
    if surfaceAttributes &&& (1 <<< (3 + ti.uvSet)) ≠ 0 then
      insertDefine texCoordKey ti.uvSet (insertDefine textureKey 1 defineList)
    else defineList
  | none => defineList

/-- Modelled from the spec: `Surface::GetVertexAttributeDefines` is not
under src/.  Per §4.2 step 2 it emits an attribute-presence define for each
bit set in the used-attribute mask. -/
def GetVertexAttributeDefines (usedAttributes : Nat)
    (defineList : DefineMap) : DefineMap :=
  (List.range VertexAttributeTypeCount).foldl
    (fun dl i =>
      if usedAttributes &&& (1 <<< i) ≠ 0 then
        insertDefine (ID_attributeDefineBase + i) 1 dl
      else dl)
    defineList

/-- The used-attribute mask of `GetPipelinePermutationID`
(forwardrendermodule.cpp lines 537-541): the fixed candidate set
Position|Normal|Tangent|Color0|Color1|PreviousPosition intersected with the
surface's attributes. -/
def computeUsedAttributes (s : Surface) : Nat :=
  (VertexAttributeFlag_Position ||| VertexAttributeFlag_Normal |||
      VertexAttributeFlag_Tangent ||| VertexAttributeFlag_Color0 |||
      VertexAttributeFlag_Color1 ||| VertexAttributeFlag_PreviousPosition) &&&
    s.vertexAttributes

/-- The define list built by `GetPipelinePermutationID`
(forwardrendermodule.cpp lines 543-592), in source order: motion-vector
defines, workflow define plus albedo and metal-rough/spec-gloss texture
defines (metallic-roughness preferred), then normal/emissive/occlusion
texture defines, double-sided, alpha-mask, and the attribute-presence
defines for the used-attribute mask. -/
def computeDefines (gmv : Bool) (s : Surface) : DefineMap :=
  let m := s.material
  let sa := s.vertexAttributes
  let dl : DefineMap := []
  let dl := if gmv then
      insertDefine ID_HAS_MOTION_VECTORS_RT 3
        (insertDefine ID_HAS_MOTION_VECTORS 1 dl)
    else dl
  let dl := if m.hasPBRInfo then
      (if m.hasPBRMetalRough then
        AddTextureToDefineList
          (AddTextureToDefineList
            (insertDefine ID_MATERIAL_METALLICROUGHNESS 0 dl) sa m
            TextureClass.Albedo ID_albedoTexture ID_albedoTexCoord)
          sa m TextureClass.MetalRough ID_metallicRoughnessTexture
          ID_metallicRoughnessTexCoord
      else if m.hasPBRSpecGloss then
        AddTextureToDefineList
          (AddTextureToDefineList
            (insertDefine ID_MATERIAL_SPECULARGLOSSINESS 0 dl) sa m
            TextureClass.Albedo ID_albedoTexture ID_albedoTexCoord)
          sa m TextureClass.SpecGloss ID_specularGlossinessTexture
          ID_specularGlossinessTexCoord
      else dl)
    else dl
  let dl := AddTextureToDefineList dl sa m TextureClass.Normal
    ID_normalTexture ID_normalTexCoord
  let dl := AddTextureToDefineList dl sa m TextureClass.Emissive
    ID_emissiveTexture ID_emissiveTexCoord
  let dl := AddTextureToDefineList dl sa m TextureClass.Occlusion
    ID_occlusionTexture ID_occlusionTexCoord
  let dl := if m.hasDoubleSided then insertDefine ID_doublesided 0 dl else dl
  let dl := if m.blendModeMask then insertDefine ID_alphaMask 0 dl else dl
  GetVertexAttributeDefines (computeUsedAttributes s) dl

/-- One 64-bit mixing step. -/
def hashCombine (h x : Nat) : Nat :=
  (h * 1099511628211 + x + 1) % 18446744073709551616

/-- Modelled from the spec: `Hash(defineList, usedAttributes, pSurface)` of
render/shaderbuilderhelper is not under src/.  Per §4.2 step 3, two surfaces
producing an identical define set and used-attribute mask MUST hash
identically and defines are order-independent, so the hash is a function of
the canonically ordered define map and the mask alone, folded into 64 bits. -/
def permutationHash (defineList : DefineMap) (usedAttributes : Nat) : Nat :=
  defineList.foldl (fun h kv => hashCombine h (kv.1 * 4294967296 + kv.2))
    (hashCombine 14695981039346656037 usedAttributes)

/-- The 64-bit pipeline hash computed for a surface
(forwardrendermodule.cpp line 595). -/
def surfaceHash (gmv : Bool) (s : Surface) : Nat :=
  permutationHash (computeDefines gmv s) (computeUsedAttributes s)

/-- `TextureIndices` (shaders/surfacerendercommon.h, not under src/):
modelled from the spec (§3, §4.3) as five texture classes, each a bindless
texture slot paired with a sampler slot, with sentinel `-1` defaults. -/
structure TextureIndices where
  AlbedoTextureIndex : Int := -1
  AlbedoSamplerIndex : Int := -1
  MetalRoughSpecGlossTextureIndex : Int := -1
  MetalRoughSpecGlossSamplerIndex : Int := -1
  NormalTextureIndex : Int := -1
  NormalSamplerIndex : Int := -1
  EmissiveTextureIndex : Int := -1
  EmissiveSamplerIndex : Int := -1
  OcclusionTextureIndex : Int := -1
  OcclusionSamplerIndex : Int := -1
deriving DecidableEq

/-- `PipelineSurfaceRenderInfo` from the module header: the owning entity
(by identity), the surface (by identity) and its resolved texture indices. -/
structure PipelineSurfaceRenderInfo where
  pOwner : Nat
  pSurface : Surface
  textureIndices : TextureIndices
deriving DecidableEq

/-- `PipelineRenderGroup` from the module header, minus the opaque
`PipelineObject*` backend handle (a pipeline exists exactly for its group):
the permutation hash, the used-attribute mask and the surface list. -/
structure PipelineRenderGroup where
  m_PipelineHash : Nat
  m_UsedAttributes : Nat
  m_RenderSurfaces : List PipelineSurfaceRenderInfo
deriving DecidableEq

/-- The comparison `m_PipelineRenderGroups[i].m_PipelineHash == hash` of the
group scan. -/
def groupHashIs (h : Nat) (g : PipelineRenderGroup) : Bool :=
  decide (g.m_PipelineHash = h)

/-- `ForwardRenderModule::GetPipelinePermutationID`
(forwardrendermodule.cpp lines 525-657): hash the surface's define set and
used-attribute mask, return the index of the first existing group with that
hash, else build the pipeline (backend work not modelled) and append a new
group carrying the hash and mask. -/
def GetPipelinePermutationID (gmv : Bool) (s : Surface)
    (groups : List PipelineRenderGroup) : List PipelineRenderGroup × Nat :=
  match scanEntry (groupHashIs (surfaceHash gmv s)) groups with
  | some (i, _) => (groups, i)
  | none =>
    (groups ++ [⟨surfaceHash gmv s, computeUsedAttributes s, []⟩],
      groups.length)

/-- Unfolding equation for `GetPipelinePermutationID` when the hash is
already cached. -/
theorem GetPPID_found {gmv : Bool} {s : Surface}
    {groups : List PipelineRenderGroup} {i : Nat} {g : PipelineRenderGroup}
    (h : scanEntry (groupHashIs (surfaceHash gmv s)) groups = some (i, g)) :
    GetPipelinePermutationID gmv s groups = (groups, i) := by
  unfold GetPipelinePermutationID
  rw [h]

/-- Unfolding equation for `GetPipelinePermutationID` when the hash is new. -/
theorem GetPPID_new {gmv : Bool} {s : Surface}
    {groups : List PipelineRenderGroup}
    (h : scanEntry (groupHashIs (surfaceHash gmv s)) groups = none) :
    GetPipelinePermutationID gmv s groups =
      (groups ++ [⟨surfaceHash gmv s, computeUsedAttributes s, []⟩],
        groups.length) := by
  unfold GetPipelinePermutationID
  rw [h]

/-- C2: two surfaces yielding an identical define set and an identical
used-attribute mask get the same 64-bit permutation hash; calling
`GetPipelinePermutationID` for the second right after the first returns the
same group index and appends no second group (hence builds no second
pipeline). -/
theorem fwd_C2 :
    ∀ (gmv : Bool) (s1 s2 : Surface) (groups : List PipelineRenderGroup),
      computeDefines gmv s1 = computeDefines gmv s2 →
      computeUsedAttributes s1 = computeUsedAttributes s2 →
        surfaceHash gmv s1 = surfaceHash gmv s2 ∧
        (GetPipelinePermutationID gmv s2
            (GetPipelinePermutationID gmv s1 groups).1).2 =
          (GetPipelinePermutationID gmv s1 groups).2 ∧
        (GetPipelinePermutationID gmv s2
            (GetPipelinePermutationID gmv s1 groups).1).1 =
          (GetPipelinePermutationID gmv s1 groups).1 := by
  intro gmv s1 s2 groups hd ha
  have hh : surfaceHash gmv s2 = surfaceHash gmv s1 := by
    unfold surfaceHash
    rw [hd, ha]
  refine ⟨hh.symm, ?_⟩
  cases h1 : scanEntry (groupHashIs (surfaceHash gmv s1)) groups with
  | some r =>
    obtain ⟨i, g⟩ := r
    have r1 := GetPPID_found h1
    have h2 : scanEntry (groupHashIs (surfaceHash gmv s2)) groups =
        some (i, g) := by
      rw [hh]
      exact h1
    rw [r1]
    have r2 := GetPPID_found h2
    rw [r2]
    exact ⟨rfl, rfl⟩
  | none =>
    have r1 := GetPPID_new h1
    rw [r1]
    have h2 : scanEntry (groupHashIs (surfaceHash gmv s2))
        (groups ++ [⟨surfaceHash gmv s1, computeUsedAttributes s1, []⟩]) =
          some (groups.length, ⟨surfaceHash gmv s1, computeUsedAttributes s1, []⟩) := by
      have hn : scanEntry (groupHashIs (surfaceHash gmv s2)) groups = none := by
        rw [hh]
        exact h1
      rw [scanEntry_append_of_none hn]
      have hone : scanEntry (groupHashIs (surfaceHash gmv s2))
          [(⟨surfaceHash gmv s1, computeUsedAttributes s1, []⟩ : PipelineRenderGroup)] =
            some (0, ⟨surfaceHash gmv s1, computeUsedAttributes s1, []⟩) := by
        unfold scanEntry
        rw [if_pos]
        unfold groupHashIs
        rw [hh]
        exact decide_eq_true rfl
      rw [hone]
      simp
    have r2 := GetPPID_found h2
    rw [r2]
    exact ⟨rfl, rfl⟩

/-- A material with no PBR data, no textures and no flags. -/
def mat0 : Material :=
  ⟨false, false, false, false, false, none, none, none, none, none, none⟩

/-- A position-only opaque surface over `mat0`. -/
def surf0 : Surface := ⟨1, false, mat0⟩

/-- Witness for C2 at a concrete surface and the empty group list. -/
theorem fwd_C2_witness :
    surfaceHash false surf0 = surfaceHash false surf0 ∧
    (GetPipelinePermutationID false surf0
        (GetPipelinePermutationID false surf0 []).1).2 =
      (GetPipelinePermutationID false surf0 []).2 ∧
    (GetPipelinePermutationID false surf0
        (GetPipelinePermutationID false surf0 []).1).1 =
      (GetPipelinePermutationID false surf0 []).1 :=
  fwd_C2 false surf0 surf0 [] rfl rfl

/-! ## Content synchronization -/

/-- The comparison `surfaceItr->pOwner == pOwner && surfaceItr->pSurface ==
pSurface` of the unload scan (forwardrendermodule.cpp line 494). -/
def surfaceMatches (owner : Nat) (s : Surface)
    (e : PipelineSurfaceRenderInfo) : Bool :=
  decide (e.pOwner = owner ∧ e.pSurface = s)

/-- The five `RemoveTexture` calls of `OnContentUnloaded`
(forwardrendermodule.cpp lines 500-504), in source order: albedo,
metal-rough/spec-gloss, normal, emissive, occlusion.  Sentinel `-1` entries
are tolerated by `RemoveTexture` itself. -/
def releaseSurfaceTextures (ti : TextureIndices)
    (tbl : List BoundTexture) : List BoundTexture :=
  RemoveTexture ti.OcclusionTextureIndex
    (RemoveTexture ti.EmissiveTextureIndex
      (RemoveTexture ti.NormalTextureIndex
        (RemoveTexture ti.MetalRoughSpecGlossTextureIndex
          (RemoveTexture ti.AlbedoTextureIndex tbl))))

/-- `m_PipelineRenderGroups[id].m_RenderSurfaces.push_back(surfaceRenderInfo)`
(forwardrendermodule.cpp line 450). -/
def appendSurfaceToGroup (entry : PipelineSurfaceRenderInfo)
    (g : PipelineRenderGroup) : PipelineRenderGroup :=
  ⟨g.m_PipelineHash, g.m_UsedAttributes, g.m_RenderSurfaces ++ [entry]⟩

/-- The module's mutable bookkeeping state: `m_Textures`, `m_Samplers`
(descriptor identities) and `m_PipelineRenderGroups`. -/
structure ModuleState where
  textures : List BoundTexture
  samplers : List Nat
  groups : List PipelineRenderGroup
deriving DecidableEq

/-- The freshly initialized module: all three vectors empty. -/
def emptyModuleState : ModuleState := ⟨[], [], []⟩

/-- The texture/sampler side of one surface's load
(forwardrendermodule.cpp lines 425-447). -/
structure LoadTexturesResult where
  textures : List BoundTexture
  samplers : List Nat
  texIdx : TextureIndices
deriving DecidableEq

/-- The sequence of `AddTexture` calls of `OnNewContentLoaded` for one
surface (forwardrendermodule.cpp lines 425-447): albedo plus the workflow
texture (metal-rough preferred over spec-gloss) only under `HasPBRInfo`,
then always normal, emissive and occlusion.  The single C++ `samplerIndex`
stack variable is threaded through the calls (each call leaves it unchanged
when its texture is absent); it is uninitialized in C++ before the first
call and modelled as starting at 0. -/
def resolveSurfaceTextures (m : Material) (textures : List BoundTexture)
    (samplers : List Nat) : LoadTexturesResult :=
  let ti0 : TextureIndices := {}
  let pbr : AddTextureResult × TextureIndices :=
    if m.hasPBRInfo then
      let rA := AddTexture (getTextureInfo m TextureClass.Albedo) textures
        samplers 0
      let tiA := { ti0 with
        AlbedoTextureIndex := rA.textureIndex
        AlbedoSamplerIndex := rA.samplerIndex }
      if m.hasPBRMetalRough then
        let rM := AddTexture (getTextureInfo m TextureClass.MetalRough)
          rA.textures rA.samplers rA.samplerIndex
        (rM, { tiA with
          MetalRoughSpecGlossTextureIndex := rM.textureIndex
          MetalRoughSpecGlossSamplerIndex := rM.samplerIndex })
      else if m.hasPBRSpecGloss then
        let rM := AddTexture (getTextureInfo m TextureClass.SpecGloss)
          rA.textures rA.samplers rA.samplerIndex
        (rM, { tiA with
          MetalRoughSpecGlossTextureIndex := rM.textureIndex
          MetalRoughSpecGlossSamplerIndex := rM.samplerIndex })
      else (rA, tiA)
    else (⟨textures, samplers, -1, 0⟩, ti0)
  let rN := AddTexture (getTextureInfo m TextureClass.Normal) pbr.1.textures
    pbr.1.samplers pbr.1.samplerIndex
  let rE := AddTexture (getTextureInfo m TextureClass.Emissive) rN.textures
    rN.samplers rN.samplerIndex
  let rO := AddTexture (getTextureInfo m TextureClass.Occlusion) rE.textures
    rE.samplers rE.samplerIndex
  ⟨rO.textures, rO.samplers,
    { pbr.2 with
      NormalTextureIndex := rN.textureIndex
      NormalSamplerIndex := rN.samplerIndex
      EmissiveTextureIndex := rE.textureIndex
      EmissiveSamplerIndex := rE.samplerIndex
      OcclusionTextureIndex := rO.textureIndex
      OcclusionSamplerIndex := rO.samplerIndex }⟩

/-- The per-surface body of `ForwardRenderModule::OnNewContentLoaded`
(forwardrendermodule.cpp lines 411-451): skip translucent surfaces, resolve
the texture/sampler slots, then append the surface-render-info record to
the group returned by `GetPipelinePermutationID`. -/
def loadSurface (gmv : Bool) (owner : Nat) (s : Surface)
    (st : ModuleState) : ModuleState :=
  if s.hasTranslucency then st
  else
    let r := resolveSurfaceTextures s.material st.textures st.samplers
    let entry : PipelineSurfaceRenderInfo := ⟨owner, s, r.texIdx⟩
    let pid := GetPipelinePermutationID gmv s st.groups
    ⟨r.textures, r.samplers, updateAt (appendSurfaceToGroup entry) pid.1 pid.2⟩

/-- The per-surface body of `ForwardRenderModule::OnContentUnloaded`
(forwardrendermodule.cpp lines 483-515): walk the pipeline groups in order;
in the first group whose surface list contains an entry matching both the
owning entity and the surface, release that entry's texture slots, erase the
entry and stop; later groups are not visited. -/
def unloadOne (owner : Nat) (s : Surface) :
    List PipelineRenderGroup → List BoundTexture →
      List PipelineRenderGroup × List BoundTexture
  | [], tbl => ([], tbl)
  | g :: gs, tbl =>
    match scanEntry (surfaceMatches owner s) g.m_RenderSurfaces with
    | some (i, e) =>
      (⟨g.m_PipelineHash, g.m_UsedAttributes,
          eraseAt g.m_RenderSurfaces i⟩ :: gs,
        releaseSurfaceTextures e.textureIndices tbl)
    | none =>
      let r := unloadOne owner s gs tbl
      (g :: r.1, r.2)

/-- `OnContentUnloaded` for one entity+surface pair, at module-state level
(the sampler list is never touched by unload). -/
def unloadSurface (owner : Nat) (s : Surface) (st : ModuleState) :
    ModuleState :=
  let r := unloadOne owner s st.groups st.textures
  ⟨r.2, st.samplers, r.1⟩

/-- When no group contains a matching entry, `unloadOne` changes nothing. -/
theorem unloadOne_no_match {owner : Nat} {s : Surface} :
    ∀ (groups : List PipelineRenderGroup) (tbl : List BoundTexture),
      (∀ g ∈ groups,
        scanEntry (surfaceMatches owner s) g.m_RenderSurfaces = none) →
      unloadOne owner s groups tbl = (groups, tbl)
  | [], tbl, _ => rfl
  | g :: gs, tbl, h => by
    have hg := h g (List.mem_cons_self g gs)
    have hrest := unloadOne_no_match gs tbl
      (fun g' hg' => h g' (List.mem_cons_of_mem g hg'))
    unfold unloadOne
    rw [hg, hrest]

/-- When a first matching group exists, `unloadOne` erases exactly the found
entry of that group, releases its texture slots, and leaves every earlier
and later group (and the other entries of the matching group) unchanged. -/
theorem unloadOne_found {owner : Nat} {s : Surface} :
    ∀ (pre : List PipelineRenderGroup) (g : PipelineRenderGroup)
      (post : List PipelineRenderGroup) (tbl : List BoundTexture)
      (i : Nat) (e : PipelineSurfaceRenderInfo),
      (∀ g' ∈ pre,
        scanEntry (surfaceMatches owner s) g'.m_RenderSurfaces = none) →
      scanEntry (surfaceMatches owner s) g.m_RenderSurfaces = some (i, e) →
      unloadOne owner s (pre ++ g :: post) tbl =
        (pre ++ ⟨g.m_PipelineHash, g.m_UsedAttributes,
            eraseAt g.m_RenderSurfaces i⟩ :: post,
          releaseSurfaceTextures e.textureIndices tbl)
  | [], g, post, tbl, i, e, _, hfound => by
    simp only [List.nil_append]
    simp only [unloadOne]
    rw [hfound]
  | g' :: pre, g, post, tbl, i, e, hpre, hfound => by
    have hg' := hpre g' (List.mem_cons_self g' pre)
    have hrest := unloadOne_found pre g post tbl i e
      (fun x hx => hpre x (List.mem_cons_of_mem g' hx)) hfound
    show unloadOne owner s (g' :: (pre ++ g :: post)) tbl = _
    simp only [unloadOne]
    rw [hg', hrest]
    rfl

/-- C3: for every state and unload notification naming an entity+surface
pair: if some group holds a matching entry, `OnContentUnloaded` erases
exactly the first matching entry of the first such group, releases that
entry's up-to-5 texture slots through `RemoveTexture` (which tolerates
sentinels), does not search later groups, and leaves every other entry of
every group unchanged; if no group holds a match, the state is unchanged. -/
theorem fwd_C3 :
    (∀ (owner : Nat) (s : Surface) (groups : List PipelineRenderGroup)
      (tbl : List BoundTexture),
      (∀ g ∈ groups,
        scanEntry (surfaceMatches owner s) g.m_RenderSurfaces = none) →
      unloadOne owner s groups tbl = (groups, tbl)) ∧
    (∀ (owner : Nat) (s : Surface) (pre : List PipelineRenderGroup)
      (g : PipelineRenderGroup) (post : List PipelineRenderGroup)
      (tbl : List BoundTexture) (i : Nat) (e : PipelineSurfaceRenderInfo),
      (∀ g' ∈ pre,
        scanEntry (surfaceMatches owner s) g'.m_RenderSurfaces = none) →
      scanEntry (surfaceMatches owner s) g.m_RenderSurfaces = some (i, e) →
        unloadOne owner s (pre ++ g :: post) tbl =
          (pre ++ ⟨g.m_PipelineHash, g.m_UsedAttributes,
              eraseAt g.m_RenderSurfaces i⟩ :: post,
            releaseSurfaceTextures e.textureIndices tbl) ∧
        e.pOwner = owner ∧ e.pSurface = s ∧
        g.m_RenderSurfaces[i]? = some e ∧
        ∀ (k : Nat) (c : PipelineSurfaceRenderInfo), k < i →
          g.m_RenderSurfaces[k]? = some c →
          ¬(c.pOwner = owner ∧ c.pSurface = s)) := by
  refine ⟨fun owner s groups tbl h => unloadOne_no_match groups tbl h, ?_⟩
  intro owner s pre g post tbl i e hpre hfound
  obtain ⟨hie, hpe, hmin⟩ := scanEntry_eq_some hfound
  have hmatch : e.pOwner = owner ∧ e.pSurface = s := of_decide_eq_true hpe
  refine ⟨unloadOne_found pre g post tbl i e hpre hfound,
    hmatch.1, hmatch.2, hie, ?_⟩
  intro k c hk hkc
  have := hmin k c hk hkc
  simpa [surfaceMatches] using this

/-- Witness for C3 at a concrete state: unloading the only entry of a
one-group state erases it (its texture indices are all sentinels, so the
table is untouched). -/
theorem fwd_C3_witness :
    unloadOne 1 surf0 [⟨0, 0, [⟨1, surf0, {}⟩]⟩] [] =
      ([⟨0, 0, eraseAt [⟨1, surf0, {}⟩] 0⟩],
        releaseSurfaceTextures {} []) := by
  have h := fwd_C3.2 1 surf0 [] ⟨0, 0, [⟨1, surf0, {}⟩]⟩ [] [] 0 ⟨1, surf0, {}⟩
    (by intro g' hg'; simp at hg') rfl
  exact h.1

/-! ## Group-membership invariant -/

/-- Unfolding equation for `unloadOne` when the head group contains a
matching entry. -/
theorem unloadOne_cons_found {owner : Nat} {s : Surface}
    {g : PipelineRenderGroup} {gs : List PipelineRenderGroup}
    {tbl : List BoundTexture} {i : Nat} {e : PipelineSurfaceRenderInfo}
    (hsc : scanEntry (surfaceMatches owner s) g.m_RenderSurfaces = some (i, e)) :
    unloadOne owner s (g :: gs) tbl =
      (⟨g.m_PipelineHash, g.m_UsedAttributes,
          eraseAt g.m_RenderSurfaces i⟩ :: gs,
        releaseSurfaceTextures e.textureIndices tbl) := by
  unfold unloadOne
  rw [hsc]

/-- Unfolding equation for `unloadOne` when the head group has no matching
entry. -/
theorem unloadOne_cons_none {owner : Nat} {s : Surface}
    {g : PipelineRenderGroup} {gs : List PipelineRenderGroup}
    {tbl : List BoundTexture}
    (hsc : scanEntry (surfaceMatches owner s) g.m_RenderSurfaces = none) :
    unloadOne owner s (g :: gs) tbl =
      (g :: (unloadOne owner s gs tbl).1, (unloadOne owner s gs tbl).2) := by
  conv_lhs => rw [unloadOne]
  rw [hsc]

/-- `updateAt` of an element appended at the end. -/
theorem updateAt_append_last (f : α → α) :
    ∀ (l : List α) (x : α), updateAt f (l ++ [x]) l.length = l ++ [f x]
  | [], _ => rfl
  | a :: l, x => by
    show a :: updateAt f (l ++ [x]) l.length = a :: (l ++ [f x])
    rw [updateAt_append_last f l x]

/-- Appending a surface entry to a group changes no group hash. -/
theorem map_hash_updateAt (entry : PipelineSurfaceRenderInfo) :
    ∀ (l : List PipelineRenderGroup) (i : Nat),
      (updateAt (appendSurfaceToGroup entry) l i).map
          (fun g => g.m_PipelineHash) =
        l.map (fun g => g.m_PipelineHash)
  | [], _ => rfl
  | g :: l, 0 => rfl
  | g :: l, n + 1 => by
    show g.m_PipelineHash :: (updateAt (appendSurfaceToGroup entry) l n).map _ = _
    rw [map_hash_updateAt entry l n]
    rfl

/-- Well-formedness of the pipeline-group list: group hashes are pairwise
distinct, and every registered surface entry sits in the group carrying its
own permutation hash. -/
def GroupsWF (gmv : Bool) (groups : List PipelineRenderGroup) : Prop :=
  (groups.map (fun g => g.m_PipelineHash)).Nodup ∧
    ∀ g ∈ groups, ∀ e ∈ g.m_RenderSurfaces,
      surfaceHash gmv e.pSurface = g.m_PipelineHash

/-- The groups component of a non-translucent `loadSurface`. -/
theorem loadSurface_groups (gmv : Bool) (owner : Nat) (s : Surface)
    (st : ModuleState) (h : s.hasTranslucency = false) :
    (loadSurface gmv owner s st).groups =
      updateAt (appendSurfaceToGroup ⟨owner, s,
          (resolveSurfaceTextures s.material st.textures st.samplers).texIdx⟩)
        (GetPipelinePermutationID gmv s st.groups).1
        (GetPipelinePermutationID gmv s st.groups).2 := by
  unfold loadSurface
  rw [if_neg (by simp [h])]

/-- `GetPipelinePermutationID` followed by the surface append preserves
group well-formedness, for any entry recording the hashed surface. -/
theorem groupsWF_append_entry (gmv : Bool) (s : Surface)
    (entry : PipelineSurfaceRenderInfo) (groups : List PipelineRenderGroup)
    (hes : entry.pSurface = s) (hwf : GroupsWF gmv groups) :
    GroupsWF gmv (updateAt (appendSurfaceToGroup entry)
      (GetPipelinePermutationID gmv s groups).1
      (GetPipelinePermutationID gmv s groups).2) := by
  obtain ⟨hnd, hent⟩ := hwf
  cases hsc : scanEntry (groupHashIs (surfaceHash gmv s)) groups with
  | some r =>
    obtain ⟨i, g⟩ := r
    rw [GetPPID_found hsc]
    show GroupsWF gmv (updateAt (appendSurfaceToGroup entry) groups i)
    obtain ⟨hig, hpg, _⟩ := scanEntry_eq_some hsc
    have hg : g.m_PipelineHash = surfaceHash gmv s := of_decide_eq_true hpg
    constructor
    · rw [map_hash_updateAt]
      exact hnd
    · intro g' hg' e he
      rcases mem_updateAt hg' with hmem | ⟨a, ha, rfl⟩
      · exact hent g' hmem e he
      · rw [hig] at ha
        obtain rfl := Option.some.inj ha
        rcases List.mem_append.mp he with he' | he'
        · exact hent g (List.getElem?_mem hig) e he'
        · simp only [List.mem_singleton] at he'
          show surfaceHash gmv e.pSurface = g.m_PipelineHash
          rw [he', hes]
          exact hg.symm
  | none =>
    rw [GetPPID_new hsc]
    show GroupsWF gmv (updateAt (appendSurfaceToGroup entry)
      (groups ++ [⟨surfaceHash gmv s, computeUsedAttributes s, []⟩])
      groups.length)
    rw [updateAt_append_last]
    have hnotin : surfaceHash gmv s ∉
        groups.map (fun g => g.m_PipelineHash) := by
      intro hmem
      obtain ⟨g, hgmem, hgh⟩ := List.mem_map.mp hmem
      have hfalse := scanEntry_eq_none.mp hsc g hgmem
      simp [groupHashIs, hgh] at hfalse
    constructor
    · rw [List.map_append]
      rw [List.nodup_append]
      refine ⟨hnd, by simp, ?_⟩
      intro a ha hb
      simp only [appendSurfaceToGroup, List.map_cons, List.map_nil,
        List.mem_singleton] at hb
      subst hb
      exact hnotin ha
    · intro g' hg' e he
      rcases List.mem_append.mp hg' with hmem | hmem
      · exact hent g' hmem e he
      · simp only [List.mem_singleton] at hmem
        subst hmem
        simp only [appendSurfaceToGroup, List.nil_append,
          List.mem_singleton] at he
        show surfaceHash gmv e.pSurface = surfaceHash gmv s
        rw [he, hes]

/-- `loadSurface` preserves group well-formedness. -/
theorem groupsWF_load (gmv : Bool) (owner : Nat) (s : Surface)
    (st : ModuleState) (h : GroupsWF gmv st.groups) :
    GroupsWF gmv (loadSurface gmv owner s st).groups := by
  cases htr : s.hasTranslucency with
  | true =>
    unfold loadSurface
    rw [if_pos (by simp [htr])]
    exact h
  | false =>
    rw [loadSurface_groups gmv owner s st htr]
    exact groupsWF_append_entry gmv s _ st.groups rfl h

/-- `unloadOne` preserves every group hash in place and only shrinks
surface lists. -/
theorem unloadOne_shape {owner : Nat} {s : Surface} :
    ∀ (groups : List PipelineRenderGroup) (tbl : List BoundTexture),
      ((unloadOne owner s groups tbl).1.map (fun g => g.m_PipelineHash) =
        groups.map (fun g => g.m_PipelineHash)) ∧
      ∀ g' ∈ (unloadOne owner s groups tbl).1, ∃ g, g ∈ groups ∧
        g'.m_PipelineHash = g.m_PipelineHash ∧
        ∀ e ∈ g'.m_RenderSurfaces, e ∈ g.m_RenderSurfaces
  | [], tbl => by
    constructor
    · rfl
    · intro g' hg'
      simp [unloadOne] at hg'
  | g :: gs, tbl => by
    cases hsc : scanEntry (surfaceMatches owner s) g.m_RenderSurfaces with
    | some r =>
      obtain ⟨i, e⟩ := r
      rw [unloadOne_cons_found hsc]
      constructor
      · rfl
      · intro g' hg'
        rcases List.mem_cons.mp hg' with rfl | hmem
        · exact ⟨g, List.mem_cons_self _ _, rfl,
            fun e' he' => mem_eraseAt he'⟩
        · exact ⟨g', List.mem_cons_of_mem _ hmem, rfl, fun _ he => he⟩
    | none =>
      have ih := @unloadOne_shape owner s gs tbl
      rw [unloadOne_cons_none hsc]
      constructor
      · show g.m_PipelineHash :: _ = g.m_PipelineHash :: _
        rw [ih.1]
      · intro g' hg'
        rcases List.mem_cons.mp hg' with rfl | hmem
        · exact ⟨g', List.mem_cons_self _ _, rfl, fun _ he => he⟩
        · obtain ⟨g0, hg0, hh, hsub⟩ := ih.2 g' hmem
          exact ⟨g0, List.mem_cons_of_mem _ hg0, hh, hsub⟩

/-- `unloadSurface` preserves group well-formedness. -/
theorem groupsWF_unload (gmv : Bool) (owner : Nat) (s : Surface)
    (st : ModuleState) (h : GroupsWF gmv st.groups) :
    GroupsWF gmv (unloadSurface owner s st).groups := by
  obtain ⟨hnd, hent⟩ := h
  have hs := @unloadOne_shape owner s st.groups st.textures
  constructor
  · show ((unloadOne owner s st.groups st.textures).1.map _).Nodup
    rw [hs.1]
    exact hnd
  · intro g' hg' e he
    obtain ⟨g, hgmem, hh, hsub⟩ := hs.2 g' hg'
    rw [hh]
    exact hent g hgmem e (hsub e he)

/-- Module states reachable by any sequence of per-surface load and unload
notifications from the freshly initialized module (C8's
"interleaving-free sequence of load and unload notifications"). -/
inductive ModuleReachable (gmv : Bool) : ModuleState → Prop
  | empty : ModuleReachable gmv emptyModuleState
  | load (owner : Nat) (s : Surface) {st : ModuleState} :
      ModuleReachable gmv st → ModuleReachable gmv (loadSurface gmv owner s st)
  | unload (owner : Nat) (s : Surface) {st : ModuleState} :
      ModuleReachable gmv st →
        ModuleReachable gmv (unloadSurface owner s st)

/-- Every reachable module state has well-formed groups. -/
theorem moduleReachable_wf {gmv : Bool} {st : ModuleState}
    (h : ModuleReachable gmv st) : GroupsWF gmv st.groups := by
  induction h with
  | empty => exact ⟨by simp [emptyModuleState], by simp [emptyModuleState]⟩
  | load owner s _ ih => exact groupsWF_load gmv owner s _ ih
  | unload owner s _ ih => exact groupsWF_unload gmv owner s _ ih

/-- If all elements satisfying `p` share one key and keys are pairwise
distinct, at most one element satisfies `p`. -/
theorem countP_le_one_of_key {β : Type} (key : α → β) (p : α → Bool) (c : β) :
    ∀ l : List α, (l.map key).Nodup → (∀ a ∈ l, p a = true → key a = c) →
      l.countP p ≤ 1
  | [], _, _ => by simp
  | a :: l, hnd, hkey => by
    simp only [List.map_cons, List.nodup_cons] at hnd
    by_cases hp : p a = true
    · have hc : key a = c := hkey a (List.mem_cons_self a l) hp
      have hzero : l.countP p = 0 := by
        rw [List.countP_eq_zero]
        intro b hb hpb
        exact hnd.1 (List.mem_map.mpr ⟨b, hb,
          by rw [hkey b (List.mem_cons_of_mem a hb) hpb, ← hc]⟩)
      rw [List.countP_cons, hzero]
      simp [hp]
    · rw [List.countP_cons]
      have hrec := countP_le_one_of_key key p c l hnd.2
        (fun b hb hpb => hkey b (List.mem_cons_of_mem a hb) hpb)
      simp only [Bool.not_eq_true] at hp
      rw [hp]
      simpa using hrec

/-- Whether a group's surface list holds an entry for the given
entity+surface pair. -/
def pairInGroup (owner : Nat) (s : Surface) (g : PipelineRenderGroup) : Bool :=
  g.m_RenderSurfaces.any (surfaceMatches owner s)

/-- C8: in every state reachable by load/unload notifications, each
entity+surface pair appears in the surface list of at most one pipeline
render group. -/
theorem fwd_C8 :
    ∀ (gmv : Bool) (st : ModuleState), ModuleReachable gmv st →
      ∀ (owner : Nat) (s : Surface),
        st.groups.countP (pairInGroup owner s) ≤ 1 := by
  intro gmv st h owner s
  obtain ⟨hnd, hent⟩ := moduleReachable_wf h
  refine countP_le_one_of_key (fun g => g.m_PipelineHash)
    (pairInGroup owner s) (surfaceHash gmv s) st.groups hnd ?_
  intro g hg hp
  obtain ⟨e, hemem, hematch⟩ := List.any_eq_true.mp hp
  have hm : e.pOwner = owner ∧ e.pSurface = s := of_decide_eq_true hematch
  rw [← hm.2]
  exact (hent g hg e hemem).symm

/-- Witness for C8 at a concrete reachable state: after one load, the loaded
pair is in at most one group. -/
theorem fwd_C8_witness :
    (loadSurface false 1 surf0 emptyModuleState).groups.countP
      (pairInGroup 1 surf0) ≤ 1 :=
  fwd_C8 false (loadSurface false 1 surf0 emptyModuleState)
    (ModuleReachable.load 1 surf0 ModuleReachable.empty) 1 surf0

/-! ## Frame submission -/

/-- The active-count pre-pass of `Execute` (forwardrendermodule.cpp lines
281-285): count the surfaces whose owner is active. -/
def countActive (isActive : Nat → Bool)
    (surfaces : List PipelineSurfaceRenderInfo) : Nat :=
  surfaces.foldl (fun n e => if isActive e.pOwner then n + 1 else n) 0

/-- The draw pass of `Execute` (forwardrendermodule.cpp lines 296-382):
walk the group's surfaces in list order; every surface with an active owner
advances the `currentSurface` buffer cursor and issues one indexed draw;
inactive surfaces are skipped entirely.  Returns the final cursor and the
drawn surfaces in order. -/
def drawPass (isActive : Nat → Bool)
    (surfaces : List PipelineSurfaceRenderInfo) :
    Nat × List PipelineSurfaceRenderInfo :=
  surfaces.foldl
    (fun acc e => if isActive e.pOwner then (acc.1 + 1, acc.2 ++ [e]) else acc)
    (0, [])

/-- What `Execute` does for one pipeline group (forwardrendermodule.cpp
lines 276-382): the instance-constant-buffer and texture-index-buffer
batch allocations are sized by the active count
(`perObjectBufferInfos.resize(activeCount)` /
`BatchAllocateConstantBuffer(..., activeCount, ...)`), then the draw pass
runs. -/
structure GroupExecResult where
  instanceSlots : Nat
  textureSlots : Nat
  cursorEnd : Nat
  draws : List PipelineSurfaceRenderInfo

/-- Per-group body of `ForwardRenderModule::Execute`. -/
def ExecuteGroup (isActive : Nat → Bool) (g : PipelineRenderGroup) :
    GroupExecResult :=
  ⟨countActive isActive g.m_RenderSurfaces,
    countActive isActive g.m_RenderSurfaces,
    (drawPass isActive g.m_RenderSurfaces).1,
    (drawPass isActive g.m_RenderSurfaces).2⟩

theorem foldl_count_filter (q : α → Bool) :
    ∀ (l : List α) (n : Nat),
      l.foldl (fun n e => if q e then n + 1 else n) n =
        n + (l.filter q).length
  | [], n => by simp
  | a :: l, n => by
    by_cases hq : q a = true
    · simp only [List.foldl_cons]
      rw [if_pos hq, List.filter_cons_of_pos hq,
        foldl_count_filter q l (n + 1), List.length_cons]
      omega
    · simp only [List.foldl_cons]
      rw [if_neg hq, List.filter_cons_of_neg hq, foldl_count_filter q l n]

theorem foldl_collect_filter (q : α → Bool) :
    ∀ (l : List α) (n : Nat) (acc : List α),
      l.foldl (fun acc e => if q e then (acc.1 + 1, acc.2 ++ [e]) else acc)
          (n, acc) =
        (n + (l.filter q).length, acc ++ l.filter q)
  | [], n, acc => by simp
  | a :: l, n, acc => by
    by_cases hq : q a = true
    · simp only [List.foldl_cons]
      rw [if_pos hq, List.filter_cons_of_pos hq,
        foldl_collect_filter q l (n + 1) (acc ++ [a]), List.length_cons]
      simp only [Prod.mk.injEq]
      constructor
      · omega
      · simp
    · simp only [List.foldl_cons]
      rw [if_neg hq, List.filter_cons_of_neg hq,
        foldl_collect_filter q l n acc]

/-- C4: per frame and per pipeline group, the number of indexed draws
equals the number of surfaces whose owner reports active, the
instance-constant-buffer and texture-index-buffer batch allocations are
each sized by that same active count, the buffer cursor ends at that count
(each slot used exactly once), and the drawn surfaces are exactly the
active sublist in order — inactive surfaces are drawn zero times and
consume zero slots. -/
theorem fwd_C4 :
    ∀ (isActive : Nat → Bool) (g : PipelineRenderGroup),
      (ExecuteGroup isActive g).draws.length =
        countActive isActive g.m_RenderSurfaces ∧
      (ExecuteGroup isActive g).instanceSlots =
        countActive isActive g.m_RenderSurfaces ∧
      (ExecuteGroup isActive g).textureSlots =
        countActive isActive g.m_RenderSurfaces ∧
      (ExecuteGroup isActive g).cursorEnd =
        countActive isActive g.m_RenderSurfaces ∧
      (ExecuteGroup isActive g).draws =
        g.m_RenderSurfaces.filter (fun e => isActive e.pOwner) := by
  intro isActive g
  have hcount : countActive isActive g.m_RenderSurfaces =
      (g.m_RenderSurfaces.filter (fun e => isActive e.pOwner)).length := by
    unfold countActive
    rw [foldl_count_filter]
    omega
  have hdraw : drawPass isActive g.m_RenderSurfaces =
      ((g.m_RenderSurfaces.filter (fun e => isActive e.pOwner)).length,
        g.m_RenderSurfaces.filter (fun e => isActive e.pOwner)) := by
    unfold drawPass
    rw [foldl_collect_filter]
    simp
  refine ⟨?_, rfl, rfl, ?_, ?_⟩
  · show (drawPass isActive g.m_RenderSurfaces).2.length = _
    rw [hdraw, hcount]
  · show (drawPass isActive g.m_RenderSurfaces).1 = _
    rw [hdraw, hcount]
  · show (drawPass isActive g.m_RenderSurfaces).2 = _
    rw [hdraw]

/-- `cauldron::UpscalerState` as read by `Execute` (the enum lives in
core/framework.h, outside src/): no upscaling, upscaling requested but not
yet applied this frame, and upscaling already applied. -/
inductive UpscalerState where
  | None
  | PreUpscale
  | PostUpscale
deriving DecidableEq

/-- The `ResolutionInfo` fields `Execute` reads: pre-upscale render
resolution and final presentation (upscaled) resolution. -/
structure ResolutionInfo where
  RenderWidth : Nat
  RenderHeight : Nat
  UpscaleWidth : Nat
  UpscaleHeight : Nat
deriving DecidableEq

/-- The viewport/scissor selection of `Execute` (forwardrendermodule.cpp
lines 251-266): upscaled dimensions when the upscaler state is `None` or
`PostUpscale`, render dimensions otherwise. -/
def viewportSize (upscaleState : UpscalerState)
    (resInfo : ResolutionInfo) : Nat × Nat :=
  if upscaleState = UpscalerState.None ∨
      upscaleState = UpscalerState.PostUpscale then
    (resInfo.UpscaleWidth, resInfo.UpscaleHeight)
  else
    (resInfo.RenderWidth, resInfo.RenderHeight)

/-- C9: the viewport and scissor dimensions equal the pre-upscale render
resolution exactly when the upscaler state reports upscaling active and not
yet applied (`PreUpscale`), and the final presentation resolution otherwise
(`None` or `PostUpscale`). -/
theorem fwd_C9 :
    ∀ (st : UpscalerState) (ri : ResolutionInfo),
      viewportSize st ri =
        if st = UpscalerState.PreUpscale then (ri.RenderWidth, ri.RenderHeight)
        else (ri.UpscaleWidth, ri.UpscaleHeight) := by
  intro st ri
  cases st <;> rfl

/-- `MAX_TEXTURES_COUNT` (shaders/surfacerendercommon.h, not under src/).
Modelled from the spec: the bindless texture array spans 500 slots (§6) and
the capacity is half of this global ceiling (§4.1), matching
`m_Textures.reserve(MAX_TEXTURES_COUNT / 2)`. -/
def MAX_TEXTURES_COUNT : Nat := 1000

/-- `MAX_SAMPLERS_COUNT` (shaders/surfacerendercommon.h, not under src/).
Modelled from the spec: 10 bindless sampler slots (§6) as half of this
global ceiling (§4.1), matching `m_Samplers.reserve(MAX_SAMPLERS_COUNT / 2)`. -/
def MAX_SAMPLERS_COUNT : Nat := 20

/-- The sampler-set size the module's root signature declares
(forwardrendermodule.cpp line 87, `AddSamplerSet(0, Pixel, 10)`; the shader
binds `AllSamplers[]` at s0-s9). -/
def ROOT_SIGNATURE_SAMPLER_SLOTS : Nat := 10

/-- The texture-capacity assertion re-checked after each load batch
(forwardrendermodule.cpp line 458): `m_Textures.size() <=
MAX_TEXTURES_COUNT / 2`. -/
def texturePublishAssertOk (textures : List BoundTexture) : Bool :=
  decide (textures.length ≤ MAX_TEXTURES_COUNT / 2)

/-- The sampler-capacity assertion re-checked after each load batch
(forwardrendermodule.cpp line 463): `m_Samplers.size() <=
MAX_SAMPLERS_COUNT` — the FULL ceiling, unlike the texture check. -/
def samplerPublishAssertOk (samplers : List Nat) : Bool :=
  decide (samplers.length ≤ MAX_SAMPLERS_COUNT)

/-- C5 (code bug): the texture assertion fires iff the live texture count
exceeds half the global texture ceiling, as claimed; but the sampler
assertion checks the FULL sampler ceiling (20), so a batch leaving 11 live
samplers passes the assertion even though 11 exceeds half the ceiling — and
exceeds the 10 sampler slots the module's own root signature and shader
declare, so the subsequent re-publish writes past the declared sampler set. -/
theorem fwd_C5_bug :
    samplerPublishAssertOk (List.replicate 11 0) = true ∧
    MAX_SAMPLERS_COUNT / 2 < 11 ∧
    ROOT_SIGNATURE_SAMPLER_SLOTS < 11 ∧
    (∀ textures : List BoundTexture,
      texturePublishAssertOk textures =
        decide (textures.length ≤ MAX_TEXTURES_COUNT / 2)) ∧
    (∀ samplers : List Nat,
      samplerPublishAssertOk samplers =
        decide (samplers.length ≤ MAX_SAMPLERS_COUNT)) := by
  refine ⟨by decide, by decide, by decide, fun _ => rfl, fun _ => rfl⟩

/-! ## Concrete load scenario -/

/-- The albedo texture of the C7 scenario: texture object 1, default
sampler descriptor, UV set 0. -/
def texAlbedoC7 : TexInfo := ⟨1, 0, 0⟩

/-- The normal texture of the C7 scenario: texture object 2, same sampler
descriptor, UV set 0. -/
def texNormalC7 : TexInfo := ⟨2, 0, 0⟩

/-- An opaque metallic-roughness material carrying albedo and normal
textures only. -/
def matC7 : Material :=
  ⟨true, true, false, false, false, some texAlbedoC7, none, none,
    some texNormalC7, none, none⟩

/-- A single opaque surface with vertex attributes
{position, normal, tangent, texcoord0} over `matC7`. -/
def surfC7 : Surface :=
  ⟨VertexAttributeFlag_Position ||| VertexAttributeFlag_Normal |||
      VertexAttributeFlag_Tangent ||| VertexAttributeFlag_Texcoord0,
    false, matC7⟩

/-- C7: loading, into the empty module, one mesh with this single surface
(no skin) produces exactly one pipeline group whose used-attribute mask is
{Position, Normal, Tangent}, a texture table with exactly the two resolved
slots 0 (albedo) and 1 (normal), one surface-render-info entry carrying
those indices (sentinels elsewhere), and the next frame issues exactly one
draw call against that group. -/
theorem fwd_C7 :
    (loadSurface false 0 surfC7 emptyModuleState).groups.map
        (fun g => g.m_UsedAttributes) =
      [VertexAttributeFlag_Position ||| VertexAttributeFlag_Normal |||
        VertexAttributeFlag_Tangent] ∧
    (loadSurface false 0 surfC7 emptyModuleState).textures =
      [⟨some 1, 1⟩, ⟨some 2, 1⟩] ∧
    (loadSurface false 0 surfC7 emptyModuleState).groups.map
        (fun g => g.m_RenderSurfaces.map (fun e =>
          (e.pOwner, e.textureIndices.AlbedoTextureIndex,
            e.textureIndices.NormalTextureIndex,
            e.textureIndices.MetalRoughSpecGlossTextureIndex,
            e.textureIndices.EmissiveTextureIndex,
            e.textureIndices.OcclusionTextureIndex))) =
      [[(0, 0, 1, -1, -1, -1)]] ∧
    (loadSurface false 0 surfC7 emptyModuleState).groups.map
        (fun g => (ExecuteGroup (fun _ => true) g).draws.length) = [1] := by
  refine ⟨?_, ?_, ?_, ?_⟩ <;> rfl
